import Mathlib

/-!
Verification of the session-lifecycle / event-multiplexing core of a
multi-tab terminal emulator front end (`src/main.rs`).

The control loop (`App::update`), title derivation (`App::update_title`) and
initialization (`App::init`) are embedded directly from `src/main.rs`.

The tab registry (`segmented_button::Model<SingleSelect>`), the `Terminal`
session and the theme table live outside the given sources (an external
widget library and the `terminal` / `terminal_theme` modules); those parts
are modelled from the spec (§4.1, §4.2, §3) and carry a
`Modelled from the spec:` note in their doc comments.
-/

namespace CosmicTerm

/-- Session identifier: opaque, unique, stable (`segmented_button::Entity`).
Modelled from the spec: SessionId is an opaque routing key; we use `Nat`
allocated from a counter, which gives uniqueness and stability. -/
abbrev Entity := Nat

/-- Raw bytes written into a pseudo-terminal (`Vec<u8>` from `into_bytes`). -/
abbrev Bytes := List Nat

/-- An RGB color from the terminal palette (`alacritty_terminal` `Rgb`). -/
structure Rgb where
  r : Nat
  g : Nat
  b : Nat
deriving DecidableEq, Repr

/-- Source `Rgb::default()`: black. -/
def Rgb.default : Rgb := ⟨0, 0, 0⟩

/-- One terminal session's observable state.
Modelled from the spec: the `Terminal` type lives in the `terminal` module,
absent from the given sources.  Per §4.1 / §3 a Session owns a color palette
fixed at creation, a viewport geometry, and a no-scroll write path; we record
every no-scroll write in `written` (oldest first) and count `refresh`
(`Terminal::update`) calls in `updates`. -/
structure Terminal where
  colors : List (Option Rgb)
  size : Nat × Nat
  written : List Bytes
  updates : Nat
deriving DecidableEq, Repr

/-- Source `Terminal::new`: a fresh session with the palette resolved from the theme.
Modelled from the spec: the initial viewport geometry is not specified by the
spec; it is irrelevant to the claims and set to `(0, 0)`. -/
def Terminal.new (colors : List (Option Rgb)) : Terminal :=
  { colors := colors, size := (0, 0), written := [], updates := 0 }

/-- Source `Terminal::input_no_scroll`: append a synthetic reply to the session's
input stream without perturbing the viewport.  The write log records it. -/
def Terminal.input_no_scroll (t : Terminal) (text : Bytes) : Terminal :=
  { t with written := t.written ++ [text] }

/-- Source `Terminal::update` (spec §4.1 `refresh()`): pull pending render state;
side-effect only, modelled as a counter increment. -/
def Terminal.update (t : Terminal) : Terminal :=
  { t with updates := t.updates + 1 }

/-- One tab entry of the registry: display title, closable flag, and the
attached session data (`data::<Mutex<Terminal>>`). -/
structure TabItem where
  text : String
  closable : Bool
  terminal : Option Terminal
deriving DecidableEq, Repr

/-- The Session Registry (`segmented_button::Model<SingleSelect>`).
Modelled from the spec (§4.2, §3): an insertion-ordered set of ids (`items`,
oldest first) plus at most one active id; `nextId` is the id allocator. -/
structure TabModel where
  items : List (Entity × TabItem)
  active : Option Entity
  nextId : Entity
deriving DecidableEq, Repr

namespace TabModel

/-- The ordered id set of the registry (`iter_ordered`). -/
def keys (tm : TabModel) : List Entity := tm.items.map Prod.fst

/-- First index of the item keyed `e` in an association list. -/
def posIn (e : Entity) : List (Entity × TabItem) → Option Nat
  | [] => none
  | it :: rest => if it.1 = e then some 0 else (posIn e rest).map (· + 1)

/-- Source `Model::position(entity)`: the position of `e` in the ordered set. -/
def position (tm : TabModel) (e : Entity) : Option Nat := posIn e tm.items

/-- Source `Model::entity_at(position)`: the id at a given position. -/
def entityAt (tm : TabModel) (p : Nat) : Option Entity :=
  (tm.items.get? p).map Prod.fst

/-- Source `Model::activate(id)`.  Modelled from the spec: a silent no-op when `id`
is absent (§4.2, §9 observed source behavior), else sets the sole active id. -/
def activate (tm : TabModel) (e : Entity) : TabModel :=
  if e ∈ tm.keys then { tm with active := some e } else tm

/-- Source `Model::activate_position(position)`: activate the id at `position`;
no-op when out of range. -/
def activate_position (tm : TabModel) (p : Nat) : TabModel :=
  match tm.entityAt p with
  | some e => tm.activate e
  | none => tm

/-- Source `Model::remove(id)`: drop `id` from the ordered set; if it was the active
id the active marker becomes unset.  Modelled from the spec (§4.2: when the
set empties "leave the active marker unset"; the caller re-activates a
neighbor first in every other case). -/
def remove (tm : TabModel) (e : Entity) : TabModel :=
  { tm with
    items := tm.items.filter (fun it => it.1 != e)
    active := if tm.active = some e then none else tm.active }

/-- Source `ModelBuilder::insert().text(text).closable().activate().id()`:
append a new id at the end, closable, and activate it (spec §4.2). -/
def insert (tm : TabModel) (text : String) : TabModel × Entity :=
  let e := tm.nextId
  ({ items := tm.items ++ [(e, { text := text, closable := true, terminal := none })]
     active := some e
     nextId := e + 1 }, e)

/-- Source `Model::text_set(entity, text)`: update the display title of `e`. -/
def text_set (tm : TabModel) (e : Entity) (text : String) : TabModel :=
  { tm with
    items := tm.items.map (fun it =>
      if it.1 = e then (it.1, { it.2 with text := text }) else it) }

/-- Source `Model::text(entity)`: the display title of `e`, when present. -/
def textOf (tm : TabModel) (e : Entity) : Option String :=
  (tm.items.find? (fun it => it.1 == e)).map (fun it => it.2.text)

/-- Source `Model::data::<Mutex<Terminal>>(entity)`: the session attached to `e`. -/
def data (tm : TabModel) (e : Entity) : Option Terminal :=
  (tm.items.find? (fun it => it.1 == e)).bind (fun it => it.2.terminal)

/-- Source `Model::data_set::<Mutex<Terminal>>(entity, terminal)`. -/
def data_set (tm : TabModel) (e : Entity) (t : Terminal) : TabModel :=
  { tm with
    items := tm.items.map (fun it =>
      if it.1 = e then (it.1, { it.2 with terminal := some t }) else it) }

/-- Source `tab_model.text(tab_model.active())`: the active session's title;
`none` when the active marker is unset (the null entity has no text). -/
def textOfActive (tm : TabModel) : Option String :=
  match tm.active with
  | some e => tm.textOf e
  | none => none

/-- The registry part of the `Message::TabClose` transition
(`src/main.rs:125-136`): activate the closest item (previous if any, else
next), then remove the entity. -/
def closeTab (tm : TabModel) (entity : Entity) : TabModel :=
  (match tm.position entity with
   | some position =>
       if position > 0 then tm.activate_position (position - 1)
       else tm.activate_position (position + 1)
   | none => tm).remove entity

end TabModel

/-- Source `TermEvent`: the closed set of session events (spec §4.3).  Response
builders are carried as functions from the queried value to reply bytes.
`Other` stands for the remaining `alacritty_terminal` variants caught by the
`_` arm. -/
inductive TermEvent where
  | Bell
  | ColorRequest (index : Nat) (f : Rgb → Bytes)
  | Exit
  | PtyWrite (text : Bytes)
  | ResetTitle
  | TextAreaSizeRequest (f : Nat × Nat → Bytes)
  | Title (title : String)
  | MouseCursorDirty
  | Wakeup
  | Other (tag : Nat)

/-- Source `Message`: the control loop's input alphabet (`enum Message`).
`TermEventTx` models receiving the multiplexer send-endpoint. -/
inductive Message where
  | TabActivate (entity : Entity)
  | TabClose (entity : Entity)
  | TabNew
  | TermEvent (entity : Entity) (event : TermEvent)
  | TermEventTx

/-- The command returned by one `update` step: `Command::none()`,
`window::close(window::Id::MAIN)`, or the command produced by
`set_window_title` carrying the new window title. -/
inductive Cmd where
  | none
  | closeWindow
  | setWindowTitle (title : String)
deriving DecidableEq, Repr

/-- The application state (`struct App`): registry, the optional multiplexer
send-endpoint (modelled by its presence), theme name, theme table, the two
title strings held by the shell, and the `log::warn!`/`log::error!` lines
emitted so far. -/
structure App where
  tab_model : TabModel
  term_event_tx_opt : Bool
  terminal_theme : String
  terminal_themes : List (String × List (Option Rgb))
  header_title : String
  window_title : String
  logs : List String
deriving DecidableEq, Repr

namespace App

/-- Source `App::update_title`: derive header and window titles from the active
tab's text and return the `set_window_title` command (`src/main.rs:309`). -/
def update_title (app : App) : App × Cmd :=
  match app.tab_model.textOfActive with
  | some tab_title =>
      ({ app with
         header_title := tab_title
         window_title := tab_title ++ " — COSMIC Terminal" },
       Cmd.setWindowTitle (tab_title ++ " — COSMIC Terminal"))
  | none =>
      ({ app with header_title := "", window_title := "COSMIC Terminal" },
       Cmd.setWindowTitle "COSMIC Terminal")

/-- The `Message::TabClose` arm of `App::update` (`src/main.rs:125`):
activate the closest item, remove the entity, close the window if that was
the last tab, else recompute titles.  `TermEvent::Exit` re-enters this same
transition (`src/main.rs:184`). -/
def tabCloseUpdate (app : App) (entity : Entity) : App × Cmd :=
  let tm := app.tab_model.closeTab entity
  let app := { app with tab_model := tm }
  if tm.items.isEmpty then (app, Cmd.closeWindow)
  else app.update_title

/-- Source `App::update` (`src/main.rs:119`): the control loop step. -/
def update (app : App) (message : Message) : App × Cmd :=
  match message with
  | .TabActivate entity =>
      let app := { app with tab_model := app.tab_model.activate entity }
      app.update_title
  | .TabClose entity => app.tabCloseUpdate entity
  | .TabNew =>
      if app.term_event_tx_opt then
        match app.terminal_themes.find? (fun th => th.1 == app.terminal_theme) with
        | some th =>
            let (tm, entity) := app.tab_model.insert "New Terminal"
            let tm := tm.data_set entity (Terminal.new th.2)
            ({ app with tab_model := tm }, Cmd.none)
        | none =>
            ({ app with logs := app.logs ++ ["failed to find terminal theme"] },
             Cmd.none)
      else
        ({ app with logs := app.logs ++ ["tried to create new tab before having event channel"] },
         Cmd.none)
  | .TermEvent entity event =>
      match event with
      | .Bell => (app, Cmd.none)
      | .ColorRequest index f =>
          match app.tab_model.data entity with
          | some terminal =>
              let rgb := (terminal.colors.getD index none).getD Rgb.default
              let text := f rgb
              ({ app with
                 tab_model := app.tab_model.data_set entity (terminal.input_no_scroll text) },
               Cmd.none)
          | none => (app, Cmd.none)
      | .Exit => app.tabCloseUpdate entity
      | .PtyWrite text =>
          match app.tab_model.data entity with
          | some terminal =>
              ({ app with
                 tab_model := app.tab_model.data_set entity (terminal.input_no_scroll text) },
               Cmd.none)
          | none => (app, Cmd.none)
      | .ResetTitle =>
          let app := { app with tab_model := app.tab_model.text_set entity "New Terminal" }
          app.update_title
      | .TextAreaSizeRequest f =>
          match app.tab_model.data entity with
          | some terminal =>
              let text := f terminal.size
              ({ app with
                 tab_model := app.tab_model.data_set entity (terminal.input_no_scroll text) },
               Cmd.none)
          | none => (app, Cmd.none)
      | .Title title =>
          let app := { app with tab_model := app.tab_model.text_set entity title }
          app.update_title
      | .MouseCursorDirty =>
          match app.tab_model.data entity with
          | some terminal =>
              ({ app with tab_model := app.tab_model.data_set entity terminal.update },
               Cmd.none)
          | none => (app, Cmd.none)
      | .Wakeup =>
          match app.tab_model.data entity with
          | some terminal =>
              ({ app with tab_model := app.tab_model.data_set entity terminal.update },
               Cmd.none)
          | none => (app, Cmd.none)
      | .Other _ => (app, Cmd.none)
  | .TermEventTx => ({ app with term_event_tx_opt := true }, Cmd.none)

/-- Source `App::init` (`src/main.rs:101`): empty registry, no send-endpoint yet,
theme `"OneHalfDark"`, then one `update_title`.  The theme table comes from
the `terminal_theme` module (absent from the given sources), so it is a
parameter. -/
def init (themes : List (String × List (Option Rgb))) : App × Cmd :=
  let app : App :=
    { tab_model := { items := [], active := none, nextId := 0 }
      term_event_tx_opt := false
      terminal_theme := "OneHalfDark"
      terminal_themes := themes
      header_title := ""
      window_title := ""
      logs := [] }
  app.update_title

/-- Run the control loop over a list of messages, keeping the state. -/
def run (app : App) (msgs : List Message) : App :=
  msgs.foldl (fun a m => (a.update m).1) app

end App

/-- The registry's single-select invariant (spec §3): the active marker is
either unset — and then the registry is empty — or a member of the ordered
id set. -/
def activeOk (tm : TabModel) : Prop :=
  match tm.active with
  | none => tm.items = []
  | some a => a ∈ tm.keys

/-- Full registry invariant: distinct ids, ids below the allocator counter,
and a valid active marker. -/
def RegInv (tm : TabModel) : Prop :=
  tm.keys.Nodup ∧ (∀ k ∈ tm.keys, k < tm.nextId) ∧ activeOk tm

/-- The Event Multiplexer (spec §4.3).
Modelled from the spec: the per-session forwarder tasks live in the
`terminal` module, absent from the given sources.  Each session `i` holds a
queue `qs i` of pending events (oldest first); a schedule entry `i` lets
session `i`'s forwarder push its next event into the shared FIFO channel,
tagged with the session id; an entry for an exhausted queue does nothing.
The returned list is the tagged stream in the order the control loop
receives it. -/
def multiplex {α : Type} (qs : Nat → List α) : List Nat → List (Nat × α)
  | [] => []
  | i :: rest =>
      match qs i with
      | [] => multiplex qs rest
      | e :: es => (i, e) :: multiplex (fun j => if j = i then es else qs j) rest

/-- Concrete three-tab registry for witnesses: ids 0, 1, 2 titled A, B, C,
with C active. -/
def tmABC : TabModel :=
  { items :=
      [(0, { text := "A", closable := true, terminal := none }),
       (1, { text := "B", closable := true, terminal := none }),
       (2, { text := "C", closable := true, terminal := none })]
    active := some 2
    nextId := 3 }

/-- Concrete application state around `tmABC`. -/
def appABC : App :=
  { tab_model := tmABC
    term_event_tx_opt := true
    terminal_theme := "OneHalfDark"
    terminal_themes := [("OneHalfDark", [some ⟨1, 2, 3⟩])]
    header_title := "C"
    window_title := "C — COSMIC Terminal"
    logs := [] }

/-- A concrete session with a two-entry palette and one prior write. -/
def termW : Terminal :=
  { colors := [none, some ⟨9, 8, 7⟩], size := (80, 24), written := [[1]], updates := 0 }

/-- Concrete application with two sessions carrying terminal data. -/
def appW : App :=
  { tab_model :=
      { items :=
          [(5, { text := "S", closable := true, terminal := some termW }),
           (6, { text := "T", closable := true, terminal := some (Terminal.new []) })]
        active := some 5
        nextId := 7 }
    term_event_tx_opt := true
    terminal_theme := "OneHalfDark"
    terminal_themes := []
    header_title := "S"
    window_title := "S — COSMIC Terminal"
    logs := [] }

/-- State `appABC` before the multiplexer send-endpoint exists. -/
def appNoTx : App :=
  { appABC with term_event_tx_opt := false }

/-! Helper lemmas about the registry operations. -/

namespace TabModel

theorem posIn_lt_length {l : List (Entity × TabItem)} {e : Entity} {p : Nat}
    (h : posIn e l = some p) : p < l.length := by
  induction l generalizing p with
  | nil => simp [posIn] at h
  | cons it rest ih =>
      by_cases hc : it.1 = e
      · simp [posIn, hc] at h
        simp [List.length_cons]
        omega
      · simp [posIn, hc] at h
        obtain ⟨q, hq, hqp⟩ := h
        have := ih hq
        simp [List.length_cons]
        omega

theorem posIn_get {l : List (Entity × TabItem)} {e : Entity} {p : Nat}
    (h : posIn e l = some p) : ∃ it, l.get? p = some it ∧ it.1 = e := by
  induction l generalizing p with
  | nil => simp [posIn] at h
  | cons it rest ih =>
      by_cases hc : it.1 = e
      · simp [posIn, hc] at h
        exact ⟨it, by simp [← h], hc⟩
      · simp [posIn, hc] at h
        obtain ⟨q, hq, hqp⟩ := h
        obtain ⟨jt, hjt, hje⟩ := ih hq
        exact ⟨jt, by rw [← hqp]; exact hjt, hje⟩

theorem posIn_none_iff {l : List (Entity × TabItem)} {e : Entity} :
    posIn e l = none ↔ ∀ it ∈ l, it.1 ≠ e := by
  induction l with
  | nil => simp [posIn]
  | cons it rest ih =>
      by_cases hc : it.1 = e <;> simp [posIn, hc, ih]

theorem posIn_zero {l : List (Entity × TabItem)} {it : Entity × TabItem} {e : Entity}
    (h : posIn e (it :: l) = some 0) : it.1 = e := by
  by_cases hc : it.1 = e
  · exact hc
  · simp [posIn, hc] at h

theorem get?_some_lt {α : Type} {l : List α} {p : Nat} {x : α}
    (h : l.get? p = some x) : p < l.length := by
  by_contra hc
  push_neg at hc
  rw [List.get?_eq_none.mpr hc] at h
  exact Option.noConfusion h

theorem entityAt_eq_some {tm : TabModel} {p : Nat} {x : Entity} :
    tm.entityAt p = some x ↔ ∃ it, tm.items.get? p = some it ∧ it.1 = x := by
  simp [entityAt]

theorem entityAt_mem {tm : TabModel} {p : Nat} {x : Entity}
    (h : tm.entityAt p = some x) : x ∈ tm.keys := by
  obtain ⟨it, hit, hfst⟩ := entityAt_eq_some.mp h
  have hm : it ∈ tm.items := List.get?_mem hit
  exact hfst ▸ List.mem_map_of_mem Prod.fst hm

theorem entityAt_of_position {tm : TabModel} {e : Entity} {p : Nat}
    (h : tm.position e = some p) : tm.entityAt p = some e := by
  obtain ⟨it, hit, hfst⟩ := posIn_get h
  exact entityAt_eq_some.mpr ⟨it, hit, hfst⟩

theorem entityAt_isSome_of_lt {tm : TabModel} {p : Nat}
    (h : p < tm.items.length) : ∃ x, tm.entityAt p = some x := by
  cases hx : tm.items.get? p with
  | none => exact absurd (List.get?_eq_none.mp hx) (by omega)
  | some it =>
      refine ⟨it.1, ?_⟩
      rw [show tm.entityAt p = (tm.items.get? p).map Prod.fst from rfl, hx]
      rfl

theorem entityAt_none_of_le {tm : TabModel} {p : Nat}
    (h : tm.items.length ≤ p) : tm.entityAt p = none := by
  rw [show tm.entityAt p = (tm.items.get? p).map Prod.fst from rfl,
    List.get?_eq_none.mpr h]
  rfl

theorem entityAt_inj {tm : TabModel} (hnd : tm.keys.Nodup) {p q : Nat} {x : Entity}
    (hp : tm.entityAt p = some x) (hq : tm.entityAt q = some x) : p = q := by
  have hp' : tm.keys.get? p = some x := by
    obtain ⟨it, hit, hfst⟩ := entityAt_eq_some.mp hp
    rw [keys, List.get?_eq_getElem?, List.getElem?_map Prod.fst tm.items p,
      ← List.get?_eq_getElem?, hit]
    simp [hfst]
  have hq' : tm.keys.get? q = some x := by
    obtain ⟨it, hit, hfst⟩ := entityAt_eq_some.mp hq
    rw [keys, List.get?_eq_getElem?, List.getElem?_map Prod.fst tm.items q,
      ← List.get?_eq_getElem?, hit]
    simp [hfst]
  have hlen : p < tm.keys.length := get?_some_lt hp'
  rw [List.get?_eq_getElem?] at hp' hq'
  exact List.getElem?_inj hlen hnd (hp'.trans hq'.symm)

theorem activate_items (tm : TabModel) (e : Entity) : (tm.activate e).items = tm.items := by
  unfold activate
  split <;> rfl

theorem activate_nextId (tm : TabModel) (e : Entity) : (tm.activate e).nextId = tm.nextId := by
  unfold activate
  split <;> rfl

theorem activate_active_of_mem {tm : TabModel} {e : Entity} (h : e ∈ tm.keys) :
    (tm.activate e).active = some e := by
  simp [activate, h]

theorem activate_of_not_mem {tm : TabModel} {e : Entity} (h : e ∉ tm.keys) :
    tm.activate e = tm := by
  simp [activate, h]

theorem activate_position_items (tm : TabModel) (p : Nat) :
    (tm.activate_position p).items = tm.items := by
  unfold activate_position
  split
  · exact activate_items tm _
  · rfl

theorem activate_position_nextId (tm : TabModel) (p : Nat) :
    (tm.activate_position p).nextId = tm.nextId := by
  unfold activate_position
  split
  · exact activate_nextId tm _
  · rfl

theorem activate_position_active_of_some {tm : TabModel} {p : Nat} {x : Entity}
    (h : tm.entityAt p = some x) : (tm.activate_position p).active = some x := by
  unfold activate_position
  rw [h]
  exact activate_active_of_mem (entityAt_mem h)

theorem activate_position_of_none {tm : TabModel} {p : Nat}
    (h : tm.entityAt p = none) : tm.activate_position p = tm := by
  unfold activate_position
  rw [h]

theorem remove_items (tm : TabModel) (e : Entity) :
    (tm.remove e).items = tm.items.filter (fun it => it.1 != e) := rfl

theorem remove_nextId (tm : TabModel) (e : Entity) :
    (tm.remove e).nextId = tm.nextId := rfl

theorem remove_active_of_ne {tm : TabModel} {e : Entity} (h : tm.active ≠ some e) :
    (tm.remove e).active = tm.active := by
  simp [remove, h]

theorem remove_active_self {tm : TabModel} {e : Entity} (h : tm.active = some e) :
    (tm.remove e).active = none := by
  simp [remove, h]

theorem keys_filter (l : List (Entity × TabItem)) (e : Entity) :
    (l.filter (fun it => it.1 != e)).map Prod.fst = (l.map Prod.fst).filter (fun k => k != e) := by
  induction l with
  | nil => rfl
  | cons it rest ih =>
      by_cases hc : it.1 = e <;> simp [List.filter_cons, hc, ih]

theorem remove_keys (tm : TabModel) (e : Entity) :
    (tm.remove e).keys = tm.keys.filter (fun k => k != e) := by
  rw [keys, remove_items, keys_filter]
  rfl

theorem not_mem_keys_iff {tm : TabModel} {e : Entity} :
    e ∉ tm.keys ↔ ∀ it ∈ tm.items, it.1 ≠ e := by
  rw [keys]
  constructor
  · intro h it hit heq
    exact h (heq ▸ List.mem_map_of_mem Prod.fst hit)
  · intro h hmem
    obtain ⟨it, hit, hfst⟩ := List.mem_map.mp hmem
    exact h it hit hfst

theorem filter_ne_of_not_mem {l : List (Entity × TabItem)} {e : Entity}
    (h : ∀ it ∈ l, it.1 ≠ e) : l.filter (fun it => it.1 != e) = l := by
  apply List.filter_eq_self.mpr
  intro it hit
  simp [h it hit]

theorem remove_eq_self {tm : TabModel} {e : Entity}
    (hk : ∀ it ∈ tm.items, it.1 ≠ e) (ha : tm.active ≠ some e) : tm.remove e = tm := by
  have hf := filter_ne_of_not_mem hk
  simp [remove, hf, ha]

theorem text_set_keys (tm : TabModel) (e : Entity) (s : String) :
    (tm.text_set e s).keys = tm.keys := by
  simp only [text_set, keys, List.map_map]
  apply List.map_congr_left
  intro it _
  by_cases hc : it.1 = e <;> simp [hc]

theorem text_set_active (tm : TabModel) (e : Entity) (s : String) :
    (tm.text_set e s).active = tm.active := rfl

theorem text_set_nextId (tm : TabModel) (e : Entity) (s : String) :
    (tm.text_set e s).nextId = tm.nextId := rfl

theorem text_set_of_not_mem {tm : TabModel} {e : Entity} {s : String}
    (h : ∀ it ∈ tm.items, it.1 ≠ e) : tm.text_set e s = tm := by
  have : tm.items.map (fun it =>
      if it.1 = e then (it.1, { it.2 with text := s }) else it) = tm.items.map id :=
    List.map_congr_left (fun it hit => by simp [h it hit])
  simp [text_set, this]

theorem data_set_keys (tm : TabModel) (e : Entity) (t : Terminal) :
    (tm.data_set e t).keys = tm.keys := by
  simp only [data_set, keys, List.map_map]
  apply List.map_congr_left
  intro it _
  by_cases hc : it.1 = e <;> simp [hc]

theorem data_set_active (tm : TabModel) (e : Entity) (t : Terminal) :
    (tm.data_set e t).active = tm.active := rfl

theorem data_set_nextId (tm : TabModel) (e : Entity) (t : Terminal) :
    (tm.data_set e t).nextId = tm.nextId := rfl

theorem insert_keys (tm : TabModel) (s : String) :
    (tm.insert s).1.keys = tm.keys ++ [tm.nextId] := by
  simp [insert, keys]

theorem insert_active (tm : TabModel) (s : String) :
    (tm.insert s).1.active = some tm.nextId := rfl

theorem insert_nextId (tm : TabModel) (s : String) :
    (tm.insert s).1.nextId = tm.nextId + 1 := rfl

theorem data_none_of_not_mem {tm : TabModel} {e : Entity} (h : e ∉ tm.keys) :
    tm.data e = none := by
  have hk := not_mem_keys_iff.mp h
  have : tm.items.find? (fun it => it.1 == e) = none := by
    apply List.find?_eq_none.mpr
    intro it hit
    simp [hk it hit]
  simp [data, this]

theorem mem_keys_exists {tm : TabModel} {e : Entity} (h : e ∈ tm.keys) :
    ∃ it ∈ tm.items, it.1 = e := by
  obtain ⟨it, hit, hfst⟩ := List.mem_map.mp h
  exact ⟨it, hit, hfst⟩

theorem find?_map_keyed (g : Entity × TabItem → Entity × TabItem)
    (hg : ∀ it, (g it).1 = it.1) (e' : Entity) (l : List (Entity × TabItem)) :
    (l.map g).find? (fun it => it.1 == e') = (l.find? (fun it => it.1 == e')).map g := by
  induction l with
  | nil => rfl
  | cons it rest ih =>
      by_cases h : it.1 = e'
      · simp [List.find?_cons, hg it, h]
      · simp [List.find?_cons, hg it, h, ih]

theorem find?_some_of_mem {l : List (Entity × TabItem)} {e : Entity}
    {it0 : Entity × TabItem} (hit0 : it0 ∈ l) (hfst0 : it0.1 = e) :
    ∃ jt, l.find? (fun it => it.1 == e) = some jt ∧ jt.1 = e := by
  have hs : (l.find? (fun it => it.1 == e)).isSome := by
    rw [List.find?_isSome]
    exact ⟨it0, hit0, by simp [hfst0]⟩
  obtain ⟨jt, hjt⟩ := Option.isSome_iff_exists.mp hs
  have := List.find?_some hjt
  exact ⟨jt, hjt, by simpa using this⟩

theorem data_data_set_self {tm : TabModel} {e : Entity} {t : Terminal}
    (h : e ∈ tm.keys) : (tm.data_set e t).data e = some t := by
  obtain ⟨it0, hit0, hfst0⟩ := mem_keys_exists h
  obtain ⟨jt, hjt, hje⟩ := find?_some_of_mem hit0 hfst0
  have hg : ∀ it : Entity × TabItem,
      ((fun it => if it.1 = e then (it.1, { it.2 with terminal := some t }) else it) it).1 = it.1 := by
    intro it
    by_cases hc : it.1 = e <;> simp [hc]
  simp only [data, data_set, find?_map_keyed _ hg, hjt]
  simp [hje]

theorem data_data_set_ne {tm : TabModel} {e e' : Entity} {t : Terminal}
    (hne : e' ≠ e) : (tm.data_set e t).data e' = tm.data e' := by
  have hg : ∀ it : Entity × TabItem,
      ((fun it => if it.1 = e then (it.1, { it.2 with terminal := some t }) else it) it).1 = it.1 := by
    intro it
    by_cases hc : it.1 = e <;> simp [hc]
  simp only [data, data_set, find?_map_keyed _ hg]
  cases hf : tm.items.find? (fun it => it.1 == e') with
  | none => rfl
  | some jt =>
      have hje : jt.1 = e' := by simpa using List.find?_some hf
      have : ¬ jt.1 = e := by rw [hje]; exact hne
      simp [this]

theorem textOf_text_set_self {tm : TabModel} {e : Entity} {s : String}
    (h : e ∈ tm.keys) : (tm.text_set e s).textOf e = some s := by
  obtain ⟨it0, hit0, hfst0⟩ := mem_keys_exists h
  obtain ⟨jt, hjt, hje⟩ := find?_some_of_mem hit0 hfst0
  have hg : ∀ it : Entity × TabItem,
      ((fun it => if it.1 = e then (it.1, { it.2 with text := s }) else it) it).1 = it.1 := by
    intro it
    by_cases hc : it.1 = e <;> simp [hc]
  simp only [textOf, text_set, find?_map_keyed _ hg, hjt]
  simp [hje]

theorem closeTab_items (tm : TabModel) (e : Entity) :
    (tm.closeTab e).items = tm.items.filter (fun it => it.1 != e) := by
  unfold closeTab
  rw [remove_items]
  rcases hp : tm.position e with _ | p
  · rfl
  · by_cases h0 : p > 0 <;> simp [h0, activate_position_items]

theorem closeTab_nextId (tm : TabModel) (e : Entity) :
    (tm.closeTab e).nextId = tm.nextId := by
  unfold closeTab
  rw [remove_nextId]
  rcases hp : tm.position e with _ | p
  · rfl
  · by_cases h0 : p > 0 <;> simp [h0, activate_position_nextId]

theorem closeTab_keys (tm : TabModel) (e : Entity) :
    (tm.closeTab e).keys = tm.keys.filter (fun k => k != e) := by
  rw [keys, closeTab_items, keys_filter]
  rfl

theorem closeTab_active_pos {tm : TabModel} {e : Entity} {p : Nat}
    (hnd : tm.keys.Nodup) (hp : tm.position e = some p) (h0 : 0 < p) :
    (tm.closeTab e).active = tm.entityAt (p - 1) := by
  have hlt : p < tm.items.length := posIn_lt_length hp
  obtain ⟨x, hx⟩ := entityAt_isSome_of_lt (show p - 1 < tm.items.length by omega)
  have he : tm.entityAt p = some e := entityAt_of_position hp
  have hxe : x ≠ e := by
    intro hcontra
    subst hcontra
    exact absurd (entityAt_inj hnd hx he) (by omega)
  have hstep : tm.closeTab e = (tm.activate_position (p - 1)).remove e := by
    unfold closeTab
    rw [hp]
    simp [h0]
  rw [hstep]
  have h1 : (tm.activate_position (p - 1)).active = some x :=
    activate_position_active_of_some hx
  rw [remove_active_of_ne (by rw [h1]; simp [hxe]), h1, hx]

theorem closeTab_active_zero {tm : TabModel} {e x : Entity}
    (hnd : tm.keys.Nodup) (hp : tm.position e = some 0) (hx : tm.entityAt 1 = some x) :
    (tm.closeTab e).active = some x := by
  have he : tm.entityAt 0 = some e := entityAt_of_position hp
  have hxe : x ≠ e := by
    intro hcontra
    subst hcontra
    exact absurd (entityAt_inj hnd hx he) (by omega)
  have hstep : tm.closeTab e = (tm.activate_position 1).remove e := by
    unfold closeTab
    rw [hp]
    simp
  rw [hstep]
  have h1 : (tm.activate_position 1).active = some x :=
    activate_position_active_of_some hx
  rw [remove_active_of_ne (by rw [h1]; simp [hxe]), h1]

theorem closeTab_entityAt_zero {tm : TabModel} {e x : Entity}
    (hnd : tm.keys.Nodup) (hp : tm.position e = some 0) (hx : tm.entityAt 1 = some x) :
    (tm.closeTab e).entityAt 0 = some x := by
  rcases hitems : tm.items with _ | ⟨it0, rest⟩
  · rw [position, hitems] at hp
    simp [posIn] at hp
  · have h0 : it0.1 = e := posIn_zero (by rw [position, hitems] at hp; exact hp)
    have hrest : ∀ it ∈ rest, it.1 ≠ e := by
      intro it hit heq
      rw [keys, hitems] at hnd
      have : it.1 ∈ rest.map Prod.fst := List.mem_map_of_mem Prod.fst hit
      rw [List.map_cons, List.nodup_cons] at hnd
      exact hnd.1 (by rw [h0, ← heq]; exact this)
    have hfil : (tm.closeTab e).items = rest := by
      rw [closeTab_items, hitems, List.filter_cons]
      simp only [h0, bne_self_eq_false]
      exact filter_ne_of_not_mem hrest
    have hx' : (rest.get? 0).map Prod.fst = some x := by
      rw [show tm.entityAt 1 = (tm.items.get? 1).map Prod.fst from rfl, hitems] at hx
      exact hx
    rw [show (tm.closeTab e).entityAt 0 = ((tm.closeTab e).items.get? 0).map Prod.fst from rfl,
      hfil]
    exact hx'

theorem closeTab_last {tm : TabModel} {e : Entity}
    (hp : tm.position e = some 0) (hlen : tm.items.length = 1) (hact : tm.active = some e) :
    (tm.closeTab e).items = [] ∧ (tm.closeTab e).active = none := by
  have hone : tm.entityAt 1 = none := entityAt_none_of_le (by omega)
  have hstep : tm.closeTab e = tm.remove e := by
    unfold closeTab
    rw [hp]
    simp [activate_position_of_none hone]
  constructor
  · rcases hitems : tm.items with _ | ⟨it0, rest⟩
    · rw [closeTab_items, hitems]
      rfl
    · have h0 : it0.1 = e := posIn_zero (by rw [position, hitems] at hp; exact hp)
      have : rest = [] := by
        rw [hitems] at hlen
        simpa using hlen
      rw [closeTab_items, hitems, this, List.filter_cons]
      simp [h0]
  · rw [hstep]
    exact remove_active_self hact

theorem closeTab_of_not_mem {tm : TabModel} {e : Entity}
    (h : e ∉ tm.keys) (ha : tm.active ≠ some e) : tm.closeTab e = tm := by
  have hk := not_mem_keys_iff.mp h
  have hpos : tm.position e = none := by
    rw [position]
    exact posIn_none_iff.mpr hk
  unfold closeTab
  rw [hpos]
  exact remove_eq_self hk ha

end TabModel

namespace App

theorem update_title_tab_model (app : App) :
    (app.update_title).1.tab_model = app.tab_model := by
  unfold update_title
  split <;> rfl

theorem update_title_logs (app : App) :
    (app.update_title).1.logs = app.logs := by
  unfold update_title
  split <;> rfl

theorem update_title_tx (app : App) :
    (app.update_title).1.term_event_tx_opt = app.term_event_tx_opt := by
  unfold update_title
  split <;> rfl

theorem update_title_snd (app : App) :
    ∃ s, (app.update_title).2 = Cmd.setWindowTitle s := by
  unfold update_title
  split <;> exact ⟨_, rfl⟩

theorem tabCloseUpdate_tab_model (app : App) (e : Entity) :
    (app.tabCloseUpdate e).1.tab_model = app.tab_model.closeTab e := by
  unfold tabCloseUpdate
  by_cases hE : (app.tab_model.closeTab e).items.isEmpty <;>
    simp [hE, update_title_tab_model]

theorem tabCloseUpdate_logs (app : App) (e : Entity) :
    (app.tabCloseUpdate e).1.logs = app.logs := by
  unfold tabCloseUpdate
  by_cases hE : (app.tab_model.closeTab e).items.isEmpty <;>
    simp [hE, update_title_logs]

end App

theorem activeOk_of_active_none {tm : TabModel} (ha : tm.active = none)
    (hi : tm.items = []) : activeOk tm := by
  simp [activeOk, ha, hi]

theorem activeOk_of_active_mem {tm : TabModel} {a : Entity} (ha : tm.active = some a)
    (hm : a ∈ tm.keys) : activeOk tm := by
  simp [activeOk, ha, hm]

theorem activeOk_elim {tm : TabModel} (h : activeOk tm) :
    (tm.active = none ∧ tm.items = []) ∨ ∃ a, tm.active = some a ∧ a ∈ tm.keys := by
  rcases ha : tm.active with _ | a
  · left
    refine ⟨rfl, ?_⟩
    rw [activeOk, ha] at h
    exact h
  · right
    refine ⟨a, rfl, ?_⟩
    rw [activeOk, ha] at h
    exact h

theorem activeOk_ne_of_not_mem {tm : TabModel} {e : Entity} (h : activeOk tm)
    (hnm : e ∉ tm.keys) : tm.active ≠ some e := by
  rcases activeOk_elim h with ⟨ha, _⟩ | ⟨a, ha, hm⟩
  · rw [ha]
    exact fun hcontra => Option.noConfusion hcontra
  · rw [ha]
    intro hcontra
    exact hnm ((Option.some.injEq _ _).mp hcontra ▸ hm)

theorem closeTab_RegInv {tm : TabModel} (h : RegInv tm) (e : Entity) :
    RegInv (tm.closeTab e) := by
  obtain ⟨hnd, hbound, hok⟩ := h
  refine ⟨?_, ?_, ?_⟩
  · rw [TabModel.closeTab_keys]
    exact hnd.filter _
  · rw [TabModel.closeTab_keys, TabModel.closeTab_nextId]
    intro k hk
    exact hbound k (List.mem_of_mem_filter hk)
  · -- the active marker stays valid
    rcases hp : tm.position e with _ | p
    · have hke : ∀ it ∈ tm.items, it.1 ≠ e := TabModel.posIn_none_iff.mp hp
      have hnm : e ∉ tm.keys := TabModel.not_mem_keys_iff.mpr hke
      have heq : tm.closeTab e = tm :=
        TabModel.closeTab_of_not_mem hnm (activeOk_ne_of_not_mem hok hnm)
      rw [heq]
      exact hok
    · by_cases h0 : 0 < p
      · have hlt : p < tm.items.length := TabModel.posIn_lt_length hp
        obtain ⟨x, hx⟩ := TabModel.entityAt_isSome_of_lt
          (show p - 1 < tm.items.length by omega)
        have he : tm.entityAt p = some e := TabModel.entityAt_of_position hp
        have hxe : x ≠ e := by
          intro hcontra
          subst hcontra
          exact absurd (TabModel.entityAt_inj hnd hx he) (by omega)
        have hact : (tm.closeTab e).active = some x := by
          rw [TabModel.closeTab_active_pos hnd hp h0, hx]
        apply activeOk_of_active_mem hact
        rw [TabModel.closeTab_keys]
        exact List.mem_filter_of_mem (TabModel.entityAt_mem hx) (by simp [hxe])
      · have hp0 : p = 0 := by omega
        subst hp0
        rcases hx : tm.entityAt 1 with _ | x
        · -- singleton registry: it empties
          have hlen1 : tm.items.length = 1 := by
            have hge : 0 < tm.items.length := TabModel.posIn_lt_length hp
            by_contra hc
            obtain ⟨y, hy⟩ := TabModel.entityAt_isSome_of_lt
              (show 1 < tm.items.length by omega)
            rw [hy] at hx
            exact Option.noConfusion hx
          have hactive : tm.active = some e := by
            rcases activeOk_elim hok with ⟨_, hi⟩ | ⟨a, ha, hm⟩
            · rw [hi] at hlen1
              simp at hlen1
            · have he : tm.entityAt 0 = some e := TabModel.entityAt_of_position hp
              obtain ⟨it, hit, hfst⟩ := TabModel.mem_keys_exists hm
              have hsome : ∃ q, tm.items.get? q = some it := by
                obtain ⟨q, hq⟩ := List.get?_of_mem hit
                exact ⟨q, hq⟩
              obtain ⟨q, hq⟩ := hsome
              have hqlt : q < tm.items.length := TabModel.get?_some_lt hq
              have hq0 : q = 0 := by omega
              subst hq0
              have : tm.entityAt 0 = some a := by
                rw [show tm.entityAt 0 = (tm.items.get? 0).map Prod.fst from rfl, hq]
                simp [hfst]
              rw [he] at this
              rw [ha]
              exact this.symm
          obtain ⟨hi, ha⟩ := TabModel.closeTab_last hp hlen1 hactive
          exact activeOk_of_active_none ha hi
        · have he : tm.entityAt 0 = some e := TabModel.entityAt_of_position hp
          have hxe : x ≠ e := by
            intro hcontra
            subst hcontra
            exact absurd (TabModel.entityAt_inj hnd hx he) (by omega)
          have hact : (tm.closeTab e).active = some x :=
            TabModel.closeTab_active_zero hnd hp hx
          apply activeOk_of_active_mem hact
          rw [TabModel.closeTab_keys]
          exact List.mem_filter_of_mem (TabModel.entityAt_mem hx) (by simp [hxe])

theorem activate_keys (tm : TabModel) (e : Entity) : (tm.activate e).keys = tm.keys := by
  rw [TabModel.keys, TabModel.activate_items]
  rfl

theorem RegInv_activate {tm : TabModel} (h : RegInv tm) (e : Entity) :
    RegInv (tm.activate e) := by
  obtain ⟨hnd, hb, hok⟩ := h
  by_cases hm : e ∈ tm.keys
  · refine ⟨by rw [activate_keys]; exact hnd,
      by rw [activate_keys, TabModel.activate_nextId]; exact hb, ?_⟩
    apply activeOk_of_active_mem (TabModel.activate_active_of_mem hm)
    rw [activate_keys]
    exact hm
  · rw [TabModel.activate_of_not_mem hm]
    exact ⟨hnd, hb, hok⟩

theorem RegInv_text_set {tm : TabModel} (h : RegInv tm) (e : Entity) (s : String) :
    RegInv (tm.text_set e s) := by
  obtain ⟨hnd, hb, hok⟩ := h
  refine ⟨by rw [TabModel.text_set_keys]; exact hnd,
    by rw [TabModel.text_set_keys, TabModel.text_set_nextId]; exact hb, ?_⟩
  rcases activeOk_elim hok with ⟨ha, hi⟩ | ⟨a, ha, hm⟩
  · apply activeOk_of_active_none (by rw [TabModel.text_set_active]; exact ha)
    simp [TabModel.text_set, hi]
  · apply activeOk_of_active_mem (by rw [TabModel.text_set_active]; exact ha)
    rw [TabModel.text_set_keys]
    exact hm

theorem RegInv_data_set {tm : TabModel} (h : RegInv tm) (e : Entity) (t : Terminal) :
    RegInv (tm.data_set e t) := by
  obtain ⟨hnd, hb, hok⟩ := h
  refine ⟨by rw [TabModel.data_set_keys]; exact hnd,
    by rw [TabModel.data_set_keys, TabModel.data_set_nextId]; exact hb, ?_⟩
  rcases activeOk_elim hok with ⟨ha, hi⟩ | ⟨a, ha, hm⟩
  · apply activeOk_of_active_none (by rw [TabModel.data_set_active]; exact ha)
    simp [TabModel.data_set, hi]
  · apply activeOk_of_active_mem (by rw [TabModel.data_set_active]; exact ha)
    rw [TabModel.data_set_keys]
    exact hm

theorem RegInv_insert_data_set {tm : TabModel} (h : RegInv tm) (s : String) (t : Terminal) :
    RegInv (((tm.insert s).1).data_set (tm.insert s).2 t) := by
  obtain ⟨hnd, hb, _⟩ := h
  have hkeys : (((tm.insert s).1).data_set (tm.insert s).2 t).keys = tm.keys ++ [tm.nextId] := by
    rw [TabModel.data_set_keys, TabModel.insert_keys]
  have hnid : (((tm.insert s).1).data_set (tm.insert s).2 t).nextId = tm.nextId + 1 := by
    rw [TabModel.data_set_nextId, TabModel.insert_nextId]
  refine ⟨?_, ?_, ?_⟩
  · rw [hkeys]
    exact List.nodup_append.mpr ⟨hnd, List.nodup_singleton _,
      fun k hk hk' => by
        simp at hk'
        subst hk'
        exact absurd (hb _ hk) (lt_irrefl _)⟩
  · rw [hkeys, hnid]
    intro k hk
    rcases List.mem_append.mp hk with hk | hk
    · exact Nat.lt_succ_of_lt (hb k hk)
    · simp at hk
      subst hk
      exact Nat.lt_succ_self _
  · apply activeOk_of_active_mem
      (by rw [TabModel.data_set_active, TabModel.insert_active])
    rw [hkeys]
    exact List.mem_append.mpr (Or.inr (by simp))

theorem update_RegInv {app : App} (h : RegInv app.tab_model) (m : Message) :
    RegInv (app.update m).1.tab_model := by
  cases m with
  | TabActivate e =>
      have heq : (app.update (.TabActivate e)).1.tab_model = app.tab_model.activate e := by
        simp only [App.update]
        rw [App.update_title_tab_model]
      rw [heq]
      exact RegInv_activate h e
  | TabClose e =>
      rw [show (app.update (.TabClose e)).1.tab_model = (app.tabCloseUpdate e).1.tab_model
        from rfl, App.tabCloseUpdate_tab_model]
      exact closeTab_RegInv h e
  | TabNew =>
      by_cases htx : app.term_event_tx_opt
      · cases hth : app.terminal_themes.find? (fun th => th.1 == app.terminal_theme) with
        | none =>
            simp only [App.update, htx, if_true, hth]
            exact h
        | some th =>
            simp only [App.update, htx, if_true, hth]
            exact RegInv_insert_data_set h _ _
      · simp only [App.update, htx, if_false]
        exact h
  | TermEvent e ev =>
      cases ev with
      | Bell => exact h
      | ColorRequest idx f =>
          cases hd : app.tab_model.data e with
          | none =>
              simp only [App.update, hd]
              exact h
          | some t =>
              simp only [App.update, hd]
              exact RegInv_data_set h _ _
      | Exit =>
          rw [show (app.update (.TermEvent e .Exit)).1.tab_model
            = (app.tabCloseUpdate e).1.tab_model from rfl, App.tabCloseUpdate_tab_model]
          exact closeTab_RegInv h e
      | PtyWrite text =>
          cases hd : app.tab_model.data e with
          | none =>
              simp only [App.update, hd]
              exact h
          | some t =>
              simp only [App.update, hd]
              exact RegInv_data_set h _ _
      | ResetTitle =>
          have heq : (app.update (.TermEvent e .ResetTitle)).1.tab_model
              = app.tab_model.text_set e "New Terminal" := by
            simp only [App.update]
            rw [App.update_title_tab_model]
          rw [heq]
          exact RegInv_text_set h _ _
      | TextAreaSizeRequest f =>
          cases hd : app.tab_model.data e with
          | none =>
              simp only [App.update, hd]
              exact h
          | some t =>
              simp only [App.update, hd]
              exact RegInv_data_set h _ _
      | Title s =>
          have heq : (app.update (.TermEvent e (.Title s))).1.tab_model
              = app.tab_model.text_set e s := by
            simp only [App.update]
            rw [App.update_title_tab_model]
          rw [heq]
          exact RegInv_text_set h _ _
      | MouseCursorDirty =>
          cases hd : app.tab_model.data e with
          | none =>
              simp only [App.update, hd]
              exact h
          | some t =>
              simp only [App.update, hd]
              exact RegInv_data_set h _ _
      | Wakeup =>
          cases hd : app.tab_model.data e with
          | none =>
              simp only [App.update, hd]
              exact h
          | some t =>
              simp only [App.update, hd]
              exact RegInv_data_set h _ _
      | Other tag => exact h
  | TermEventTx => exact h

theorem run_RegInv {app : App} (h : RegInv app.tab_model) (msgs : List Message) :
    RegInv (app.run msgs).tab_model := by
  induction msgs generalizing app with
  | nil => exact h
  | cons m rest ih => exact ih (update_RegInv h m)

theorem init_RegInv (themes : List (String × List (Option Rgb))) :
    RegInv ((App.init themes).1).tab_model := by
  have heq : ((App.init themes).1).tab_model
      = { items := [], active := none, nextId := 0 } := by
    rw [App.init, App.update_title_tab_model]
  rw [heq]
  exact ⟨List.nodup_nil, by intro k hk; simp [TabModel.keys] at hk, rfl⟩

theorem data_some_mem {tm : TabModel} {e : Entity} {t : Terminal}
    (h : tm.data e = some t) : e ∈ tm.keys := by
  unfold TabModel.data at h
  cases hf : tm.items.find? (fun it => it.1 == e) with
  | none =>
      rw [hf] at h
      exact Option.noConfusion h
  | some jt =>
      have hm : jt ∈ tm.items := List.mem_of_find?_eq_some hf
      have hfe : jt.1 = e := by simpa using List.find?_some hf
      exact hfe ▸ List.mem_map_of_mem Prod.fst hm

theorem update_resetTitle_tab_model (app : App) (e : Entity) :
    (app.update (.TermEvent e .ResetTitle)).1.tab_model
      = app.tab_model.text_set e "New Terminal" := by
  simp only [App.update]
  rw [App.update_title_tab_model]

theorem update_titleEvent_tab_model (app : App) (e : Entity) (s : String) :
    (app.update (.TermEvent e (.Title s))).1.tab_model
      = app.tab_model.text_set e s := by
  simp only [App.update]
  rw [App.update_title_tab_model]

theorem tabCloseUpdate_of_empty {app : App} {e : Entity}
    (h : (app.tab_model.closeTab e).items = []) :
    app.tabCloseUpdate e
      = ({ app with tab_model := app.tab_model.closeTab e }, Cmd.closeWindow) := by
  unfold App.tabCloseUpdate
  simp [h]

theorem tabCloseUpdate_of_nonempty {app : App} {e : Entity}
    (h : (app.tab_model.closeTab e).items ≠ []) :
    app.tabCloseUpdate e
      = ({ app with tab_model := app.tab_model.closeTab e }).update_title := by
  unfold App.tabCloseUpdate
  simp [h]

/-! The claims. -/

/-- C2: for every sequence of messages (insert / remove / activate and all
session events) processed by the control loop starting from the empty
registry, the active marker afterwards is either unset — and then the
registry is empty — or refers to an id that is a member of the current
ordered id set. -/
theorem spec_c2 (themes : List (String × List (Option Rgb))) (msgs : List Message) :
    activeOk (((App.init themes).1).run msgs).tab_model :=
  (run_RegInv (init_RegInv themes) msgs).2.2

/-- C5: processing `ExitRequested` for a session id produces exactly the
same resulting state and the same output command as processing a
user-initiated close of that tab — the source delegates `TermEvent::Exit`
to `Message::TabClose` (`src/main.rs:184-186`). -/
theorem spec_c5 (app : App) (e : Entity) :
    app.update (.TermEvent e .Exit) = app.update (.TabClose e) := rfl

/-- C8: the recomputed header title equals the active session's display
title (empty string when none is active), and the recomputed window title
equals that title followed by `" — COSMIC Terminal"` (the fixed placeholder
`"COSMIC Terminal"` when none is active). -/
theorem spec_c8 (app : App) (e : Entity) :
    (app.tab_model.active = some e →
      ∀ s, app.tab_model.textOf e = some s →
        (app.update_title).1.header_title = s ∧
        (app.update_title).1.window_title = s ++ " — COSMIC Terminal" ∧
        (app.update_title).2 = Cmd.setWindowTitle (s ++ " — COSMIC Terminal")) ∧
    (app.tab_model.active = none →
      (app.update_title).1.header_title = "" ∧
      (app.update_title).1.window_title = "COSMIC Terminal" ∧
      (app.update_title).2 = Cmd.setWindowTitle "COSMIC Terminal") := by
  constructor
  · intro ha s hs
    have hta : app.tab_model.textOfActive = some s := by
      rw [TabModel.textOfActive, ha]
      exact hs
    simp only [App.update_title, hta]
    refine ⟨?_, ?_, ?_⟩ <;> trivial
  · intro ha
    have hta : app.tab_model.textOfActive = none := by
      rw [TabModel.textOfActive, ha]
    simp only [App.update_title, hta]
    refine ⟨?_, ?_, ?_⟩ <;> trivial

/-- Witness for C8 at the concrete state `appABC` (active tab 2, title "C"). -/
theorem spec_c8_witness :
    (appABC.update_title).1.header_title = "C" ∧
    (appABC.update_title).1.window_title = "C — COSMIC Terminal" := by
  have h := (spec_c8 appABC 2).1 rfl "C" rfl
  exact ⟨h.1, h.2.1⟩

/-- C1: close-tab tie-break when the closed id is active at position `p`:
with more than one tab, closing activates the id at `p - 1` when `p > 0`,
else the id now sitting at position `p = 0` after the removal (the former
next tab); when the removal empties the registry the active marker is left
unset and the window-close command is produced instead of a title recompute
(titles unchanged). -/
theorem spec_c1 (app : App) (e : Entity) (p : Nat)
    (hnd : app.tab_model.keys.Nodup)
    (hp : app.tab_model.position e = some p)
    (hact : app.tab_model.active = some e) :
    (app.tab_model.items.length = 1 →
      (app.update (.TabClose e)).1.tab_model.items = [] ∧
      (app.update (.TabClose e)).1.tab_model.active = none ∧
      (app.update (.TabClose e)).2 = Cmd.closeWindow ∧
      (app.update (.TabClose e)).1.header_title = app.header_title ∧
      (app.update (.TabClose e)).1.window_title = app.window_title) ∧
    (1 < app.tab_model.items.length → 0 < p →
      (app.update (.TabClose e)).1.tab_model.active = app.tab_model.entityAt (p - 1)) ∧
    (1 < app.tab_model.items.length → p = 0 →
      (app.update (.TabClose e)).1.tab_model.active
        = (app.update (.TabClose e)).1.tab_model.entityAt 0 ∧
      ∃ s, (app.update (.TabClose e)).2 = Cmd.setWindowTitle s) := by
  have hupd : app.update (.TabClose e) = app.tabCloseUpdate e := rfl
  refine ⟨?_, ?_, ?_⟩
  · intro hlen
    have hp0 : p = 0 := by
      have := TabModel.posIn_lt_length hp
      omega
    subst hp0
    obtain ⟨hi, ha⟩ := TabModel.closeTab_last hp hlen hact
    have hc := tabCloseUpdate_of_empty hi
    rw [hupd, hc]
    exact ⟨hi, ha, rfl, rfl, rfl⟩
  · intro _ h0
    rw [hupd, App.tabCloseUpdate_tab_model]
    exact TabModel.closeTab_active_pos hnd hp h0
  · intro hlen hp0
    subst hp0
    obtain ⟨x, hx⟩ := TabModel.entityAt_isSome_of_lt
      (show 1 < app.tab_model.items.length from hlen)
    have hac : (app.tab_model.closeTab e).active = some x :=
      TabModel.closeTab_active_zero hnd hp hx
    have hea : (app.tab_model.closeTab e).entityAt 0 = some x :=
      TabModel.closeTab_entityAt_zero hnd hp hx
    have hne : (app.tab_model.closeTab e).items ≠ [] := by
      intro hcontra
      rw [show (app.tab_model.closeTab e).entityAt 0
        = ((app.tab_model.closeTab e).items.get? 0).map Prod.fst from rfl, hcontra] at hea
      exact Option.noConfusion hea
    have hc := tabCloseUpdate_of_nonempty hne
    constructor
    · rw [hupd, App.tabCloseUpdate_tab_model, hac, hea]
    · rw [hupd, hc]
      exact App.update_title_snd _

/-- Witness for C1 at `appABC`: closing the active last tab (id 2 at
position 2) activates the id at position 1. -/
theorem spec_c1_witness :
    (appABC.update (.TabClose 2)).1.tab_model.active = appABC.tab_model.entityAt 1 :=
  (spec_c1 appABC 2 2 (by decide) (by decide) rfl).2.1 (by decide) (by decide)

/-- C6 (implicit): closing a tab also moves the active marker when the
closed tab was not active — after the close, the id at the closed tab's
previous position minus one (or at position 1 when it was first) is active. -/
theorem spec_c6 (app : App) (e : Entity) (p : Nat) (a : Entity)
    (hnd : app.tab_model.keys.Nodup)
    (hp : app.tab_model.position e = some p)
    (hlen : 2 ≤ app.tab_model.items.length)
    (_ha : app.tab_model.active = some a)
    (_hne : a ≠ e) :
    (app.update (.TabClose e)).1.tab_model.active
      = if 0 < p then app.tab_model.entityAt (p - 1)
        else app.tab_model.entityAt 1 := by
  have hupd : app.update (.TabClose e) = app.tabCloseUpdate e := rfl
  rw [hupd, App.tabCloseUpdate_tab_model]
  by_cases h0 : 0 < p
  · rw [if_pos h0]
    exact TabModel.closeTab_active_pos hnd hp h0
  · have hp0 : p = 0 := by omega
    subst hp0
    obtain ⟨x, hx⟩ := TabModel.entityAt_isSome_of_lt
      (show 1 < app.tab_model.items.length by omega)
    rw [if_neg h0, TabModel.closeTab_active_zero hnd hp hx, hx]

/-- Witness for C6 at `appABC`: closing non-active tab 1 (position 1,
active is 2) activates the id at position 0. -/
theorem spec_c6_witness :
    (appABC.update (.TabClose 1)).1.tab_model.active
      = (if 0 < 1 then appABC.tab_model.entityAt 0 else appABC.tab_model.entityAt 1) :=
  spec_c6 appABC 1 1 2 (by decide) (by decide) (by decide) rfl (by decide)

/-- C3: query round-trip.  When session `e` is present with state `t0`,
a `ColorRequest` invokes its response builder on the session's palette entry
at the given index (the default color when that entry is unset) and appends
exactly that one reply through the no-scroll write path of the same session;
a `TextAreaSizeRequest` does the same with the session's current viewport
geometry; in both cases every other session's state is untouched. -/
theorem spec_c3 (app : App) (e : Entity) (t0 : Terminal) (idx : Nat)
    (f : Rgb → Bytes) (g : Nat × Nat → Bytes)
    (h : app.tab_model.data e = some t0) :
    ((app.update (.TermEvent e (.ColorRequest idx f))).1.tab_model.data e
        = some (t0.input_no_scroll (f ((t0.colors.getD idx none).getD Rgb.default))) ∧
      ∀ e', e' ≠ e →
        (app.update (.TermEvent e (.ColorRequest idx f))).1.tab_model.data e'
          = app.tab_model.data e') ∧
    ((app.update (.TermEvent e (.TextAreaSizeRequest g))).1.tab_model.data e
        = some (t0.input_no_scroll (g t0.size)) ∧
      ∀ e', e' ≠ e →
        (app.update (.TermEvent e (.TextAreaSizeRequest g))).1.tab_model.data e'
          = app.tab_model.data e') := by
  have hmem : e ∈ app.tab_model.keys := data_some_mem h
  constructor
  · constructor
    · simp only [App.update, h]
      exact TabModel.data_data_set_self hmem
    · intro e' hne
      simp only [App.update, h]
      exact TabModel.data_data_set_ne hne
  · constructor
    · simp only [App.update, h]
      exact TabModel.data_data_set_self hmem
    · intro e' hne
      simp only [App.update, h]
      exact TabModel.data_data_set_ne hne

/-- Witness for C3 at `appW`: a color query for palette index 1 of session 5
appends the reply built from that entry, and session 6 is untouched. -/
theorem spec_c3_witness :
    (appW.update (.TermEvent 5 (.ColorRequest 1 (fun c => [c.r, c.g, c.b])))).1.tab_model.data 5
      = some (termW.input_no_scroll [9, 8, 7]) ∧
    (appW.update (.TermEvent 5 (.ColorRequest 1 (fun c => [c.r, c.g, c.b])))).1.tab_model.data 6
      = appW.tab_model.data 6 := by
  have h := spec_c3 appW 5 termW 1 (fun c => [c.r, c.g, c.b]) (fun sz => [sz.1]) rfl
  exact ⟨h.1.1, h.1.2 6 (by decide)⟩

/-- C4: an event carrying a session id that is no longer in the registry
(and hence is not the active id) leaves the registry — ordered set, active
marker, every remaining session's state, and hence the derived titles —
unchanged, writes nothing to any session, and logs nothing. -/
theorem spec_c4 (app : App) (e : Entity) (ev : TermEvent)
    (h1 : e ∉ app.tab_model.keys)
    (h2 : app.tab_model.active ≠ some e) :
    (app.update (.TermEvent e ev)).1.tab_model = app.tab_model ∧
    (app.update (.TermEvent e ev)).1.logs = app.logs := by
  have hd : app.tab_model.data e = none := TabModel.data_none_of_not_mem h1
  have hk := TabModel.not_mem_keys_iff.mp h1
  cases ev with
  | Bell => exact ⟨rfl, rfl⟩
  | ColorRequest idx f =>
      simp only [App.update, hd]
      exact ⟨trivial, trivial⟩
  | Exit =>
      constructor
      · rw [show (app.update (.TermEvent e .Exit)).1.tab_model
          = (app.tabCloseUpdate e).1.tab_model from rfl, App.tabCloseUpdate_tab_model]
        exact TabModel.closeTab_of_not_mem h1 h2
      · rw [show (app.update (.TermEvent e .Exit)).1.logs
          = (app.tabCloseUpdate e).1.logs from rfl]
        exact App.tabCloseUpdate_logs app e
  | PtyWrite text =>
      simp only [App.update, hd]
      exact ⟨trivial, trivial⟩
  | ResetTitle =>
      constructor
      · rw [update_resetTitle_tab_model]
        exact TabModel.text_set_of_not_mem hk
      · simp only [App.update]
        rw [App.update_title_logs]
  | TextAreaSizeRequest f =>
      simp only [App.update, hd]
      exact ⟨trivial, trivial⟩
  | Title s =>
      constructor
      · rw [update_titleEvent_tab_model]
        exact TabModel.text_set_of_not_mem hk
      · simp only [App.update]
        rw [App.update_title_logs]
  | MouseCursorDirty =>
      simp only [App.update, hd]
      exact ⟨trivial, trivial⟩
  | Wakeup =>
      simp only [App.update, hd]
      exact ⟨trivial, trivial⟩
  | Other tag => exact ⟨rfl, rfl⟩

/-- Witness for C4 at `appABC`: an `Exit` event for absent id 9 changes
nothing. -/
theorem spec_c4_witness :
    (appABC.update (.TermEvent 9 TermEvent.Exit)).1.tab_model = appABC.tab_model ∧
    (appABC.update (.TermEvent 9 TermEvent.Exit)).1.logs = appABC.logs :=
  spec_c4 appABC 9 TermEvent.Exit (by decide) (by decide)

/-- C7: new-tab failure atomicity.  When the multiplexer send-endpoint is
not yet available, or the configured theme resolves to no palette, the
new-tab command creates no session: registry and titles are unchanged, the
returned command is `none` (no retry), and exactly one log line is added. -/
theorem spec_c7 (app : App)
    (h : app.term_event_tx_opt = false ∨
      app.terminal_themes.find? (fun th => th.1 == app.terminal_theme) = none) :
    (app.update .TabNew).1.tab_model = app.tab_model ∧
    (app.update .TabNew).1.header_title = app.header_title ∧
    (app.update .TabNew).1.window_title = app.window_title ∧
    (app.update .TabNew).2 = Cmd.none ∧
    (app.update .TabNew).1.logs.length = app.logs.length + 1 := by
  cases htx : app.term_event_tx_opt with
  | true =>
      have hth : app.terminal_themes.find? (fun th => th.1 == app.terminal_theme) = none := by
        rcases h with h | h
        · rw [htx] at h
          exact absurd h (by simp)
        · exact h
      simp [App.update, htx, hth]
  | false => simp [App.update, htx]

/-- Witness for C7 at `appNoTx` (send-endpoint absent). -/
theorem spec_c7_witness :
    (appNoTx.update .TabNew).1.tab_model = appNoTx.tab_model ∧
    (appNoTx.update .TabNew).1.header_title = appNoTx.header_title ∧
    (appNoTx.update .TabNew).1.window_title = appNoTx.window_title ∧
    (appNoTx.update .TabNew).2 = Cmd.none ∧
    (appNoTx.update .TabNew).1.logs.length = appNoTx.logs.length + 1 :=
  spec_c7 appNoTx (Or.inl rfl)

/-- C9: per-session event ordering.  For every assignment of event queues to
sessions and every interleaving schedule, the subsequence of the multiplexed
stream tagged with session `s` is an in-order prefix of `s`'s own queue: two
events emitted in order by the same session reach the control loop in that
order, for every interleaving with other sessions' events. -/
theorem spec_c9 {α : Type} (qs : Nat → List α) (sched : List Nat) (s : Nat) :
    ∃ rest, qs s
      = (((multiplex qs sched).filter (fun p => p.1 == s)).map Prod.snd) ++ rest := by
  induction sched generalizing qs with
  | nil => exact ⟨qs s, by simp [multiplex]⟩
  | cons i rest' ih =>
      cases hq : qs i with
      | nil =>
          obtain ⟨r, hr⟩ := ih qs
          exact ⟨r, by rw [multiplex.eq_2, hq]; exact hr⟩
      | cons ev evs =>
          have hm : multiplex qs (i :: rest')
              = (i, ev) :: multiplex (fun j => if j = i then evs else qs j) rest' := by
            rw [multiplex.eq_2, hq]
          by_cases his : i = s
          · subst his
            obtain ⟨r, hr⟩ := ih (fun j => if j = i then evs else qs j)
            rw [if_pos rfl] at hr
            refine ⟨r, ?_⟩
            rw [hq, hm]
            simpa using hr
          · obtain ⟨r, hr⟩ := ih (fun j => if j = i then evs else qs j)
            have hsi : ¬ s = i := fun hcontra => his hcontra.symm
            rw [if_neg hsi] at hr
            refine ⟨r, ?_⟩
            rw [hm]
            simpa [his] using hr

/-- C10: `TitleReset` idempotence.  With session `e` present, one reset sets
its display title to the placeholder `"New Terminal"`, a second consecutive
reset leaves that same value, and a reset after any `TitleChanged` also
yields the placeholder. -/
theorem spec_c10 (app : App) (e : Entity) (h : e ∈ app.tab_model.keys) :
    ((app.update (.TermEvent e .ResetTitle)).1.tab_model.textOf e
      = some "New Terminal") ∧
    (((app.update (.TermEvent e .ResetTitle)).1.update
        (.TermEvent e .ResetTitle)).1.tab_model.textOf e = some "New Terminal") ∧
    ∀ s, ((app.update (.TermEvent e (.Title s))).1.update
        (.TermEvent e .ResetTitle)).1.tab_model.textOf e = some "New Terminal" := by
  have hkeys1 : (app.update (.TermEvent e .ResetTitle)).1.tab_model.keys
      = app.tab_model.keys := by
    rw [update_resetTitle_tab_model, TabModel.text_set_keys]
  refine ⟨?_, ?_, ?_⟩
  · rw [update_resetTitle_tab_model]
    exact TabModel.textOf_text_set_self h
  · rw [update_resetTitle_tab_model ((app.update (.TermEvent e .ResetTitle)).1)]
    exact TabModel.textOf_text_set_self (by rw [hkeys1]; exact h)
  · intro s
    have hkeysT : (app.update (.TermEvent e (.Title s))).1.tab_model.keys
        = app.tab_model.keys := by
      rw [update_titleEvent_tab_model, TabModel.text_set_keys]
    rw [update_resetTitle_tab_model ((app.update (.TermEvent e (.Title s))).1)]
    exact TabModel.textOf_text_set_self (by rw [hkeysT]; exact h)

/-- Witness for C10 at `appABC`, session 0: two consecutive resets leave the
placeholder title. -/
theorem spec_c10_witness :
    ((appABC.update (.TermEvent 0 TermEvent.ResetTitle)).1.update
      (.TermEvent 0 TermEvent.ResetTitle)).1.tab_model.textOf 0
      = some "New Terminal" :=
  (spec_c10 appABC 0 (by decide)).2.1

end CosmicTerm
